import Mathlib

/-!
Shallow embedding of the churn decision-support engine of this repository
(`decision_tool.js` in its two variants: the richer engine with profit /
ROI / breakeven / profit-curve, and the simpler `computePolicy` variant).

Modelling conventions:
* JavaScript numbers are modelled by `ℚ`.  All numbers the engine actually
  manipulates are finite (risk scores, costs, counts), with one exception:
  the base rate computed at load time divides by `rows.length`, which for an
  empty population is the JavaScript `0 / 0 = NaN`.  That single NaN source
  and its propagation through `randomStrategy` are modelled by the two-point
  type `JSNum` below.
* A value that may be JavaScript `null`/`undefined` is modelled by `Option`.
* The module-level bindings `rows` and `hasActual` of the source are passed
  to each function explicitly; `hasActual` is `hasActualOf rows` after
  loading.
* Requested capacities come from `toNumber` of a slider value; they are
  modelled as integers (`ℤ`), so negative and oversized requests are
  representable and the `clamp` in the source is exercised.
-/

namespace DecisionTool

/-- One loaded customer row after `init`'s normalisation: `customer_id` a
string, `churn_probability` a number (risk score), `actual_churn` the
numeric label when the label column was present and non-empty, otherwise
JavaScript `undefined`, modelled as `none`. -/
structure Customer where
  customer_id : String
  churn_probability : ℚ
  actual_churn : Option ℚ
deriving Repr, DecidableEq

/-- `toNumber(x, fallback)` of the source: `Number(x)` when that is finite,
otherwise the fallback.  The argument is modelled as `Option ℚ`: `none`
stands for a value whose `Number(·)` is not finite (JavaScript `undefined`
or a non-numeric string). -/
def toNumber (x : Option ℚ) (fallback : ℚ) : ℚ :=
  x.getD fallback

/-- `clamp(n, lo, hi) = Math.max(lo, Math.min(hi, n))` of the source. -/
def clamp (n lo hi : ℤ) : ℤ :=
  max lo (min hi n)

/-- The true-positive test of the engine variant: `r.actual_churn === 1`. -/
def labelIsOne (r : Customer) : Bool :=
  decide (r.actual_churn = some 1)

/-- The true-positive test of the `computePolicy` variant:
`toNumber(r.actual_churn, 0) === 1`. -/
def labelCoercedIsOne (r : Customer) : Bool :=
  decide (toNumber r.actual_churn 0 = 1)

/-- A `for`-loop / `reduce` tallying how many rows pass a test, as the
source writes it (accumulator starting at 0). -/
def countIf (p : Customer → Bool) (l : List Customer) : ℕ :=
  l.foldl (fun acc r => acc + (if p r then 1 else 0)) 0

/-- A `for`-loop / `reduce` summing a numeric field over rows. -/
def sumBy (f : Customer → ℚ) (l : List Customer) : ℚ :=
  l.foldl (fun acc r => acc + f r) 0

/-- `hasActual = rows.some(r => r.actual_churn !== undefined)` of `init`. -/
def hasActualOf (rows : List Customer) : Bool :=
  rows.any fun r => r.actual_churn.isSome

/-- `expectedTP(contacted)` of the engine: with labels, the count of
contacted rows whose `actual_churn === 1`; without labels, the sum of
`churn_probability` over contacted rows. -/
def expectedTP (hasActual : Bool) (contacted : List Customer) : ℚ :=
  if hasActual then
    (countIf labelIsOne contacted : ℚ)
  else
    sumBy (fun r => r.churn_probability) contacted

/-- Result record of `profitFor`. -/
structure EvalResult where
  profit : ℚ
  cost : ℚ
  tpExp : ℚ
  contacted : List Customer
deriving Repr

/-- `profitFor(contactedCount, contactCost, churnLoss, saveRate)` of the
engine: clamp the requested count to `[0, rows.length]`, contact that
prefix of the ranked rows, and price it. -/
def profitFor (rows : List Customer) (hasActual : Bool) (contactedCount : ℤ)
    (contactCost churnLoss saveRate : ℚ) : EvalResult :=
  let N : ℤ := clamp contactedCount 0 rows.length
  let contacted := rows.take N.toNat
  let tpExp := expectedTP hasActual contacted
  let cost : ℚ := (N : ℚ) * contactCost
  let profit := tpExp * (saveRate * churnLoss) - cost
  ⟨profit, cost, tpExp, contacted⟩

/-- A JavaScript number that is either finite or `NaN`.  Only the base-rate
computation can produce `NaN` in this engine (the `0 / 0` on an empty
population), and `NaN` propagates through the arithmetic of
`randomStrategy`; everything else stays finite. -/
inductive JSNum where
  | num (val : ℚ)
  | nan
deriving Repr, DecidableEq

/-- JavaScript division as used by the base-rate computation.  At both call
sites the numerator is `0` whenever the denominator is `0` (sums and counts
over an empty row list), so a zero denominator is exactly the JavaScript
`0 / 0 = NaN`; `±Infinity` never arises. -/
def jsDiv (x y : ℚ) : JSNum :=
  if y = 0 then JSNum.nan else JSNum.num (x / y)

/-- `t * k` for finite `k`, with `NaN` propagation. -/
def JSNum.mulNum (q : ℚ) : JSNum → JSNum
  | JSNum.num v => JSNum.num (q * v)
  | JSNum.nan => JSNum.nan

/-- `t * k - c` for finite `k` and `c`, with `NaN` propagation. -/
def JSNum.timesSub : JSNum → ℚ → ℚ → JSNum
  | JSNum.num t, k, c => JSNum.num (t * k - c)
  | JSNum.nan, _, _ => JSNum.nan

/-- The base rate computed once by `init`: the empirical positive rate
`positives / rows.length` when labels exist, otherwise the mean risk score.
On an empty population the label branch cannot be taken and the mean-risk
branch is the JavaScript `0 / 0 = NaN`. -/
def baseRateOf (rows : List Customer) : JSNum :=
  if hasActualOf rows then
    jsDiv (countIf labelIsOne rows : ℚ) (rows.length : ℚ)
  else
    jsDiv (sumBy (fun r => r.churn_probability) rows) (rows.length : ℚ)

/-- Result record of `randomStrategy`.  `tpExp` and `profit` inherit the
possible `NaN` of the base rate; `cost` is always finite. -/
structure RandomResult where
  profit : JSNum
  cost : ℚ
  tpExp : JSNum
deriving Repr

/-- `randomStrategy(contactedCount, contactCost, churnLoss, saveRate)` of
the engine: same clamp and cost formula as `profitFor`, but the expected
true positives are `N * baseRate`.  (The source's `baseRate ?? 0` only
covers the pre-load `null`; after `init` the base rate is a number or
`NaN`, which `??` does not replace.) -/
def randomStrategy (rows : List Customer) (contactedCount : ℤ)
    (contactCost churnLoss saveRate : ℚ) : RandomResult :=
  let N : ℤ := clamp contactedCount 0 rows.length
  let tpExp := JSNum.mulNum (N : ℚ) (baseRateOf rows)
  let cost : ℚ := (N : ℚ) * contactCost
  let profit := tpExp.timesSub (saveRate * churnLoss) cost
  ⟨profit, cost, tpExp⟩

/-- Result record of `doNothingStrategy`. -/
structure SimpleResult where
  profit : ℚ
  cost : ℚ
  tpExp : ℚ
deriving Repr

/-- `doNothingStrategy()` of the engine. -/
def doNothingStrategy : SimpleResult :=
  ⟨0, 0, 0⟩

/-- `roi(profit, cost)` of the engine: `null` when `cost <= 0`, otherwise
`profit / cost`. -/
def roi (profit cost : ℚ) : Option ℚ :=
  if cost ≤ 0 then none else some (profit / cost)

/-- `breakEvenSaveRate(tpExp, contacts, churnLoss, contactCost)` of the
engine: `null` when `tpExp <= 0 || churnLoss <= 0`, otherwise
`(contacts * contactCost) / (tpExp * churnLoss)`. -/
def breakEvenSaveRate (tpExp contacts churnLoss contactCost : ℚ) : Option ℚ :=
  if tpExp ≤ 0 ∨ churnLoss ≤ 0 then none
  else some ((contacts * contactCost) / (tpExp * churnLoss))

/-- Result record of `computePrecisionRecall`; every field is `null` when
the dataset has no labels. -/
structure PRResult where
  precision : Option ℚ
  recallVal : Option ℚ
  tp : Option ℕ
  fp : Option ℕ
  totalPos : Option ℕ
deriving Repr

/-- `computePrecisionRecall(contacted)` of the engine.  `tp`/`fp` tally the
contacted rows by `actual_churn === 1`; `totalPos` tallies the whole
population; precision and recall guard their zero denominators with 0.
(The source field named `recall` is called `recallVal` here because `recall`
is a reserved word in this development's prover.) -/
def computePrecisionRecall (rows : List Customer) (hasActual : Bool)
    (contacted : List Customer) : PRResult :=
  if hasActual then
    let totalPos := countIf labelIsOne rows
    let tp := countIf labelIsOne contacted
    let fp := countIf (fun r => !labelIsOne r) contacted
    let precision : ℚ := if 0 < tp + fp then (tp : ℚ) / ((tp : ℚ) + (fp : ℚ)) else 0
    let recallVal : ℚ := if 0 < totalPos then (tp : ℚ) / (totalPos : ℚ) else 0
    ⟨some precision, some recallVal, some tp, some fp, some totalPos⟩
  else
    ⟨none, none, none, none, none⟩

/-- The curve step of `computeProfitCurve`: `Math.max(50, Math.floor(n / 40))`. -/
def stepOf (n : ℕ) : ℕ :=
  max 50 (n / 40)

/-- The sampling loop of `computeProfitCurve`:
`for (let cap = 0; cap <= n; cap += step) points.push({capacity: cap, profit})`. -/
def curveLoop (rows : List Customer) (hasActual : Bool)
    (contactCost churnLoss saveRate : ℚ) (cap : ℕ) : List (ℕ × ℚ) :=
  if _h : cap ≤ rows.length then
    (cap, (profitFor rows hasActual cap contactCost churnLoss saveRate).profit)
      :: curveLoop rows hasActual contactCost churnLoss saveRate
          (cap + stepOf rows.length)
  else
    []
termination_by rows.length + 1 - cap
decreasing_by
  have h50 : 50 ≤ stepOf rows.length := le_max_left _ _
  omega

/-- `computeProfitCurve(contactCost, churnLoss, saveRate)` of the engine:
empty for an empty population; otherwise the sampled grid, with a final
point forced to capacity `n` when the grid missed it
(`points[points.length - 1]?.capacity !== n`). -/
def computeProfitCurve (rows : List Customer) (hasActual : Bool)
    (contactCost churnLoss saveRate : ℚ) : List (ℕ × ℚ) :=
  if rows.length = 0 then []
  else
    let n := rows.length
    let points := curveLoop rows hasActual contactCost churnLoss saveRate 0
    if points.getLast?.map Prod.fst ≠ some n then
      points
        ++ [(n, (profitFor rows hasActual n contactCost churnLoss saveRate).profit)]
    else
      points

/-- The comparator of `init`'s `rows.sort((a, b) => b.churn_probability -
a.churn_probability)`: `a` may precede `b` exactly when `b`'s risk does not
exceed `a`'s.  JavaScript `Array.prototype.sort` is a stable sort
(ECMAScript 2019+), modelled by `List.mergeSort`. -/
def riskLE (a b : Customer) : Bool :=
  decide (b.churn_probability ≤ a.churn_probability)

/-- The ranked population built by `init`: the loaded rows sorted by risk
descending with a stable sort. -/
def rankRows (input : List Customer) : List Customer :=
  input.mergeSort riskLE

/-- A raw `actual_churn` CSV cell as `init` sees it: the column may be
missing or the cell empty (JavaScript `undefined` / `""`), a numeric
string, or a non-numeric string (whose `Number(·)` is `NaN`). -/
inductive RawCell where
  | missing
  | numeric (q : ℚ)
  | nonNumeric
deriving Repr, DecidableEq

/-- `init`'s label normalisation:
`(actualRaw === undefined || actualRaw === "") ? undefined : toNumber(actualRaw, 0)`.
A non-numeric string therefore becomes the fallback `0`, not an error. -/
def loadActual : RawCell → Option ℚ
  | RawCell.missing => none
  | RawCell.numeric q => some (toNumber (some q) 0)
  | RawCell.nonNumeric => some (toNumber none 0)

/-- Result record of the `computePolicy` variant. -/
structure PolicyResult where
  profit : ℚ
  contacts : ℤ
  tp : ℕ
  fp : ℕ
  precision : Option ℚ
  recallVal : Option ℚ
  contacted : List Customer
deriving Repr

/-- `computePolicy(topN, contactCost, churnLoss, saveRate)` of the simpler
variant (`src/decision_tool.js`): same clamp, slice and profit formula, but
the label test coerces with `toNumber(r.actual_churn, 0) === 1`, and
precision/recall are inlined. -/
def computePolicy (rows : List Customer) (hasActual : Bool) (topN : ℤ)
    (contactCost churnLoss saveRate : ℚ) : PolicyResult :=
  let N : ℤ := clamp topN 0 rows.length
  let contacts := N
  let contacted := rows.take N.toNat
  let totalPos := if hasActual then countIf labelCoercedIsOne rows else 0
  let tp := if hasActual then countIf labelCoercedIsOne contacted else 0
  let fp :=
    if hasActual then countIf (fun r => !labelCoercedIsOne r) contacted else 0
  let expTP : ℚ :=
    if hasActual then (tp : ℚ)
    else sumBy (fun r => toNumber (some r.churn_probability) 0) contacted
  let profit := expTP * (saveRate * churnLoss) - (N : ℚ) * contactCost
  let precision :=
    if hasActual then
      some (if 0 < tp + fp then (tp : ℚ) / ((tp : ℚ) + (fp : ℚ)) else 0)
    else none
  let recallVal :=
    if hasActual then
      some (if 0 < totalPos then (tp : ℚ) / (totalPos : ℚ) else 0)
    else none
  ⟨profit, contacts, tp, fp, precision, recallVal, contacted⟩

end DecisionTool

namespace DecisionTool

/-- The tallying loop `countIf` is `List.countP`. -/
theorem countIf_eq_countP (p : Customer → Bool) (l : List Customer) :
    countIf p l = l.countP p := by
  have h : ∀ a : ℕ,
      l.foldl (fun acc r => acc + (if p r then 1 else 0)) a = a + l.countP p := by
    induction l with
    | nil => intro a; simp
    | cons x xs ih =>
      intro a
      simp only [List.foldl_cons, List.countP_cons, ih]
      cases hx : p x
      · simp [hx]
      · simp [hx]
        omega
  simpa [countIf] using h 0

/-- The summing loop `sumBy` is the sum of the mapped list. -/
theorem sumBy_eq_sum (f : Customer → ℚ) (l : List Customer) :
    sumBy f l = (l.map f).sum := by
  have h : ∀ a : ℚ,
      l.foldl (fun acc r => acc + f r) a = a + (l.map f).sum := by
    induction l with
    | nil => intro a; simp
    | cons x xs ih =>
      intro a
      simp only [List.foldl_cons, List.map_cons, List.sum_cons, ih]
      ring
  simpa [sumBy] using h 0

/-- A test and its negation tally to the list length. -/
theorem countP_add_countP_not (p : Customer → Bool) (l : List Customer) :
    l.countP p + l.countP (fun r => !p r) = l.length := by
  induction l with
  | nil => simp
  | cons x xs ih =>
    simp only [List.countP_cons, List.length_cons]
    cases hx : p x
    · simp [hx]
      omega
    · simp [hx]
      omega

/-- The two label tests of the two source variants agree:
`r.actual_churn === 1` holds exactly when `toNumber(r.actual_churn, 0) === 1`. -/
theorem labelIsOne_eq_labelCoercedIsOne :
    labelIsOne = labelCoercedIsOne := by
  funext r
  cases h : r.actual_churn with
  | none => simp [labelIsOne, labelCoercedIsOne, toNumber, h]
  | some q => simp [labelIsOne, labelCoercedIsOne, toNumber, h]

/-- C1: `profitFor` clamps the requested capacity to `[0, rows.length]`,
contacts exactly that prefix of the ranked population, charges
`N * contactCost` and returns
`profit = expectedTP * (saveRate * churnLoss) - cost`. -/
theorem profitFor_spec (rows : List Customer) (hasActual : Bool) (cap : ℤ)
    (cc cl sr : ℚ) :
    0 ≤ clamp cap 0 rows.length ∧
    clamp cap 0 rows.length ≤ (rows.length : ℤ) ∧
    (profitFor rows hasActual cap cc cl sr).contacted
      = rows.take (clamp cap 0 rows.length).toNat ∧
    (profitFor rows hasActual cap cc cl sr).cost
      = ((clamp cap 0 rows.length : ℤ) : ℚ) * cc ∧
    (profitFor rows hasActual cap cc cl sr).profit
      = expectedTP hasActual (profitFor rows hasActual cap cc cl sr).contacted
          * (sr * cl)
        - (profitFor rows hasActual cap cc cl sr).cost := by
  refine ⟨?_, ?_, rfl, rfl, rfl⟩
  · simp only [clamp]
    omega
  · simp only [clamp]
    omega

/-- C2: for every contacted slice, `expectedTP` is the exact count of
contacted rows whose label is 1 when the loaded dataset is labeled, and the
sum of the contacted risk scores when it is not. -/
theorem expectedTP_count_or_sum (rows contacted : List Customer) :
    (hasActualOf rows = true →
      expectedTP (hasActualOf rows) contacted
        = (contacted.countP labelIsOne : ℚ)) ∧
    (hasActualOf rows = false →
      expectedTP (hasActualOf rows) contacted
        = (contacted.map fun r => r.churn_probability).sum) := by
  have hcount : ∀ (l : List Customer) (a : ℕ),
      l.foldl (fun acc r => acc + (if labelIsOne r then 1 else 0)) a
        = a + l.countP labelIsOne := by
    intro l
    induction l with
    | nil => intro a; simp
    | cons x xs ih =>
      intro a
      simp only [List.foldl_cons, List.countP_cons, ih]
      cases h : labelIsOne x
      · simp [h]
      · simp [h]
        omega
  have hsum : ∀ (l : List Customer) (a : ℚ),
      l.foldl (fun acc r => acc + r.churn_probability) a
        = a + (l.map fun r => r.churn_probability).sum := by
    intro l
    induction l with
    | nil => intro a; simp
    | cons x xs ih =>
      intro a
      simp only [List.foldl_cons, List.map_cons, List.sum_cons, ih]
      ring
  constructor
  · intro h
    simp [expectedTP, h, countIf, hcount]
  · intro h
    simp [expectedTP, h, sumBy, hsum]

/-- Witness for C2 at a concrete labeled and a concrete unlabeled
population. -/
theorem expectedTP_count_or_sum_witness :
    expectedTP (hasActualOf [⟨"a", 9/10, some 1⟩, ⟨"b", 1/2, some 0⟩])
        [⟨"a", 9/10, some 1⟩, ⟨"b", 1/2, some 0⟩]
      = (([⟨"a", 9/10, some 1⟩, ⟨"b", 1/2, some 0⟩] : List Customer).countP
          labelIsOne : ℚ) ∧
    expectedTP (hasActualOf [⟨"c", 3/4, none⟩])
        [⟨"c", 3/4, none⟩]
      = (([⟨"c", 3/4, none⟩] : List Customer).map
          fun r => r.churn_probability).sum :=
  ⟨(expectedTP_count_or_sum [⟨"a", 9/10, some 1⟩, ⟨"b", 1/2, some 0⟩]
      [⟨"a", 9/10, some 1⟩, ⟨"b", 1/2, some 0⟩]).1 (by decide),
   (expectedTP_count_or_sum [⟨"c", 3/4, none⟩] [⟨"c", 3/4, none⟩]).2
      (by decide)⟩

/-- C4: `breakEvenSaveRate` returns the `null` sentinel iff
`expectedTruePositives ≤ 0` or `churnLoss ≤ 0`; otherwise it returns
`(contacts * contactCost) / (tpExp * churnLoss)`, and substituting that
rate into the profit formula with the same contacts, contact cost, churn
loss and expected true positives gives profit exactly 0. -/
theorem breakEvenSaveRate_spec (tpExp contacts cl cc : ℚ) :
    (breakEvenSaveRate tpExp contacts cl cc = none ↔ tpExp ≤ 0 ∨ cl ≤ 0) ∧
    (0 < tpExp → 0 < cl →
      breakEvenSaveRate tpExp contacts cl cc
          = some ((contacts * cc) / (tpExp * cl)) ∧
      tpExp * (((contacts * cc) / (tpExp * cl)) * cl) - contacts * cc = 0) := by
  refine ⟨?_, ?_⟩
  · by_cases h : tpExp ≤ 0 ∨ cl ≤ 0 <;> simp [breakEvenSaveRate, h]
  · intro h1 h2
    have hcond : ¬(tpExp ≤ 0 ∨ cl ≤ 0) := by
      push_neg
      exact ⟨h1, h2⟩
    have h1n : tpExp ≠ 0 := ne_of_gt h1
    have h2n : cl ≠ 0 := ne_of_gt h2
    refine ⟨by simp [breakEvenSaveRate, hcond], ?_⟩
    field_simp
    ring

/-- Witness for C4 at `tpExp = 2`, `contacts = 5`, `churnLoss = 10`,
`contactCost = 4`. -/
theorem breakEvenSaveRate_spec_witness :
    (0:ℚ) < 2 ∧ (0:ℚ) < 10 ∧
    breakEvenSaveRate 2 5 10 4 = some ((5 * 4) / (2 * 10)) ∧
    2 * ((((5:ℚ) * 4) / (2 * 10)) * 10) - 5 * 4 = 0 := by
  refine ⟨by norm_num, by norm_num, ?_, ?_⟩
  · exact ((breakEvenSaveRate_spec 2 5 10 4).2 (by norm_num) (by norm_num)).1
  · exact ((breakEvenSaveRate_spec 2 5 10 4).2 (by norm_num) (by norm_num)).2

/-- C5: `roi` returns the `null` sentinel iff `cost ≤ 0`, and otherwise
returns exactly `profit / cost`. -/
theorem roi_spec (profit cost : ℚ) :
    (roi profit cost = none ↔ cost ≤ 0) ∧
    (0 < cost → roi profit cost = some (profit / cost)) := by
  refine ⟨?_, ?_⟩
  · by_cases h : cost ≤ 0 <;> simp [roi, h]
  · intro h
    have h2 : ¬cost ≤ 0 := not_le.mpr h
    simp [roi, h2]

/-- Witness for C5 at `profit = 6`, `cost = 3`. -/
theorem roi_spec_witness : (0:ℚ) < 3 ∧ roi 6 3 = some (6 / 3) :=
  ⟨by norm_num, (roi_spec 6 3).2 (by norm_num)⟩

/-- C9 fails as stated: on a population of size 0 the load-time base rate
is the JavaScript `0 / 0 = NaN` — an unguarded division — and
`randomStrategy` propagates it, so its expected true positives and profit
are the invalid value `NaN`, neither zero nor the `null` "not applicable"
sentinel. -/
theorem empty_population_counterexample :
    baseRateOf [] = JSNum.nan ∧
    (randomStrategy [] 5 1 1 1).tpExp = JSNum.nan ∧
    (randomStrategy [] 5 1 1 1).profit = JSNum.nan ∧
    JSNum.nan ≠ JSNum.num 0 := by
  decide

/-- C9 (amended): on a population of size 0, `profitFor` returns profit 0,
cost 0, expected true positives 0 and an empty contacted slice; the profit
curve is empty; `roi` and `breakEvenSaveRate` return the `null` sentinel
(cost and expected true positives being 0); precision/recall are all
`null`; and `randomStrategy` has cost 0 but — because the base rate is the
unguarded `0 / 0 = NaN` — returns `NaN` for expected true positives and
profit rather than zero or the sentinel. -/
theorem empty_population_spec (cap : ℤ) (cc cl sr pq capq : ℚ) :
    hasActualOf ([] : List Customer) = false ∧
    (profitFor [] false cap cc cl sr).profit = 0 ∧
    (profitFor [] false cap cc cl sr).cost = 0 ∧
    (profitFor [] false cap cc cl sr).tpExp = 0 ∧
    (profitFor [] false cap cc cl sr).contacted = [] ∧
    computeProfitCurve [] false cc cl sr = [] ∧
    roi pq 0 = none ∧
    breakEvenSaveRate 0 capq cl cc = none ∧
    computePrecisionRecall [] (hasActualOf ([] : List Customer)) []
        = ⟨none, none, none, none, none⟩ ∧
    (randomStrategy [] cap cc cl sr).cost = 0 ∧
    (randomStrategy [] cap cc cl sr).tpExp = JSNum.nan ∧
    (randomStrategy [] cap cc cl sr).profit = JSNum.nan := by
  have hcl : clamp cap 0 0 = 0 := by
    simp only [clamp]
    omega
  have hbr : baseRateOf [] = JSNum.nan := by
    simp [baseRateOf, hasActualOf, jsDiv, sumBy]
  refine ⟨rfl, ?_, ?_, ?_, ?_, ?_, ?_, ?_, ?_, ?_, ?_, ?_⟩
  · simp [profitFor, expectedTP, sumBy, hcl]
  · simp [profitFor, hcl]
  · simp [profitFor, expectedTP, sumBy, hcl]
  · simp [profitFor, hcl]
  · simp [computeProfitCurve]
  · simp [roi]
  · simp [breakEvenSaveRate]
  · simp [computePrecisionRecall, hasActualOf]
  · simp [randomStrategy, hcl]
  · simp [randomStrategy, hbr, JSNum.mulNum]
  · simp [randomStrategy, hbr, JSNum.mulNum, JSNum.timesSub]

/-- C10: a contacted entry is counted as a true positive — in
`expectedTP`, precision/recall tallies and the total-positive count —
exactly when its label after `toNumber(·, 0)` coercion equals 1; any other
label (0, another number, a non-numeric string coerced to the fallback 0,
or a missing cell) is counted as a non-churner rather than rejected. -/
theorem label_counting_spec (rows contacted : List Customer) (topN : ℤ)
    (cc cl sr : ℚ) :
    expectedTP true contacted = (contacted.countP labelCoercedIsOne : ℚ) ∧
    (computePrecisionRecall rows true contacted).tp
        = some (contacted.countP labelCoercedIsOne) ∧
    (computePrecisionRecall rows true contacted).fp
        = some (contacted.countP fun r => !labelCoercedIsOne r) ∧
    (computePrecisionRecall rows true contacted).totalPos
        = some (rows.countP labelCoercedIsOne) ∧
    (computePolicy rows true topN cc cl sr).tp
        = (rows.take (clamp topN 0 rows.length).toNat).countP
            labelCoercedIsOne ∧
    (∀ idv : String, ∀ p q : ℚ, q ≠ 1 →
      labelCoercedIsOne ⟨idv, p, some q⟩ = false) ∧
    loadActual RawCell.nonNumeric = some 0 ∧
    (∀ idv : String, ∀ p : ℚ,
      labelCoercedIsOne ⟨idv, p, loadActual RawCell.nonNumeric⟩ = false ∧
      labelCoercedIsOne ⟨idv, p, loadActual RawCell.missing⟩ = false) := by
  have hfun := labelIsOne_eq_labelCoercedIsOne
  refine ⟨?_, ?_, ?_, ?_, ?_, ?_, ?_, ?_⟩
  · simp [expectedTP, countIf_eq_countP, hfun]
  · simp [computePrecisionRecall, countIf_eq_countP, hfun]
  · simp [computePrecisionRecall, countIf_eq_countP, hfun]
  · simp [computePrecisionRecall, countIf_eq_countP, hfun]
  · simp [computePolicy, countIf_eq_countP]
  · intro idv p q hq
    simp [labelCoercedIsOne, toNumber, hq]
  · simp [loadActual, toNumber]
  · intro idv p
    exact ⟨by simp [labelCoercedIsOne, loadActual, toNumber],
           by simp [labelCoercedIsOne, loadActual, toNumber]⟩

/-- `computePrecisionRecall` on a labeled dataset, in closed form. -/
theorem computePrecisionRecall_true_eq (rows contacted : List Customer) :
    computePrecisionRecall rows true contacted =
      ⟨some (if 0 < contacted.countP labelIsOne
                + contacted.countP (fun r => !labelIsOne r) then
               (contacted.countP labelIsOne : ℚ)
                 / ((contacted.countP labelIsOne : ℚ)
                     + (contacted.countP (fun r => !labelIsOne r) : ℚ))
             else 0),
       some (if 0 < rows.countP labelIsOne then
               (contacted.countP labelIsOne : ℚ)
                 / (rows.countP labelIsOne : ℚ)
             else 0),
       some (contacted.countP labelIsOne),
       some (contacted.countP (fun r => !labelIsOne r)),
       some (rows.countP labelIsOne)⟩ := by
  simp [computePrecisionRecall, countIf_eq_countP]

/-- C3 fails as stated: on a labeled population whose labels are all 0
(zero total positives), recall at capacity = population size is 0, not 1 —
consistently with the claim's own clause that recall is 0 when the total
positive count is 0. -/
theorem precisionRecall_counterexample :
    hasActualOf [⟨"a", 1/2, some 0⟩] = true ∧
    (computePrecisionRecall [⟨"a", 1/2, some 0⟩]
        (hasActualOf [⟨"a", 1/2, some 0⟩])
        (([⟨"a", 1/2, some 0⟩] : List Customer).take
          ([⟨"a", 1/2, some 0⟩] : List Customer).length)).recallVal
      = some 0 ∧
    (computePrecisionRecall [⟨"a", 1/2, some 0⟩]
        (hasActualOf [⟨"a", 1/2, some 0⟩])
        (([⟨"a", 1/2, some 0⟩] : List Customer).take
          ([⟨"a", 1/2, some 0⟩] : List Customer).length)).recallVal
      ≠ some 1 := by
  decide

/-- C3 (amended): for every labeled population and capacity `N ≤` size,
precision and recall exist and lie in `[0, 1]`, recall is non-decreasing in
capacity, precision is 0 at capacity 0, recall is 0 when the total positive
count is 0, and — provided the total positive count is positive — recall at
capacity = population size equals 1. -/
theorem computePrecisionRecall_bounds (rows : List Customer) (N : ℕ)
    (hA : hasActualOf rows = true) (hN : N ≤ rows.length) :
    ∃ p r : ℚ,
      (computePrecisionRecall rows (hasActualOf rows) (rows.take N)).precision
          = some p ∧
      (computePrecisionRecall rows (hasActualOf rows) (rows.take N)).recallVal
          = some r ∧
      0 ≤ p ∧ p ≤ 1 ∧ 0 ≤ r ∧ r ≤ 1 ∧
      (N = 0 → p = 0) ∧
      (rows.countP labelIsOne = 0 → r = 0) ∧
      (N = rows.length → 0 < rows.countP labelIsOne → r = 1) ∧
      (∀ M : ℕ, M ≤ N → ∀ rM : ℚ,
        (computePrecisionRecall rows (hasActualOf rows)
            (rows.take M)).recallVal = some rM →
        rM ≤ r) := by
  rw [hA]
  have htple : (rows.take N).countP labelIsOne ≤ rows.countP labelIsOne :=
    (List.take_sublist N rows).countP_le labelIsOne
  refine ⟨if 0 < (rows.take N).countP labelIsOne
              + (rows.take N).countP (fun r => !labelIsOne r) then
            ((rows.take N).countP labelIsOne : ℚ)
              / (((rows.take N).countP labelIsOne : ℚ)
                  + ((rows.take N).countP (fun r => !labelIsOne r) : ℚ))
          else 0,
          if 0 < rows.countP labelIsOne then
            ((rows.take N).countP labelIsOne : ℚ)
              / (rows.countP labelIsOne : ℚ)
          else 0, ?_, ?_, ?_, ?_, ?_, ?_, ?_, ?_, ?_, ?_⟩
  · rw [computePrecisionRecall_true_eq]
  · rw [computePrecisionRecall_true_eq]
  · split_ifs with h
    · positivity
    · exact le_refl 0
  · split_ifs with h
    · have hpos : (0:ℚ) < ((rows.take N).countP labelIsOne : ℚ)
          + ((rows.take N).countP (fun r => !labelIsOne r) : ℚ) := by
        exact_mod_cast h
      rw [div_le_one hpos]
      exact le_add_of_nonneg_right (by positivity)
    · norm_num
  · split_ifs with h
    · positivity
    · exact le_refl 0
  · split_ifs with h
    · have hpos : (0:ℚ) < (rows.countP labelIsOne : ℚ) := by exact_mod_cast h
      rw [div_le_one hpos]
      exact_mod_cast htple
    · norm_num
  · intro h0
    subst h0
    simp
  · intro h0
    simp [h0]
  · intro hNl hTpos
    subst hNl
    rw [if_pos hTpos, List.take_length]
    exact div_self (by exact_mod_cast hTpos.ne')
  · intro M hM rM hrM
    rw [computePrecisionRecall_true_eq] at hrM
    simp only [Option.some.injEq] at hrM
    subst hrM
    have hsubM : List.Sublist (rows.take M) (rows.take N) := by
      have heq : (rows.take N).take M = rows.take M := by
        rw [List.take_take, min_eq_left hM]
      rw [← heq]
      exact List.take_sublist M (rows.take N)
    have htpM : (rows.take M).countP labelIsOne
        ≤ (rows.take N).countP labelIsOne :=
      hsubM.countP_le labelIsOne
    by_cases hTp : 0 < rows.countP labelIsOne
    · rw [if_pos hTp, if_pos hTp]
      have hTq : (0:ℚ) < (rows.countP labelIsOne : ℚ) := by exact_mod_cast hTp
      exact (div_le_div_iff_of_pos_right hTq).mpr (by exact_mod_cast htpM)
    · rw [if_neg hTp, if_neg hTp]

/-- Witness for the amended C3 at a two-element labeled population with
capacity 1. -/
theorem computePrecisionRecall_bounds_witness :
    hasActualOf [⟨"a", 9/10, some 1⟩, ⟨"b", 1/10, some 0⟩] = true ∧
    (1:ℕ) ≤ ([⟨"a", 9/10, some 1⟩, ⟨"b", 1/10, some 0⟩] :
        List Customer).length ∧
    ∃ p r : ℚ,
      (computePrecisionRecall [⟨"a", 9/10, some 1⟩, ⟨"b", 1/10, some 0⟩]
          (hasActualOf [⟨"a", 9/10, some 1⟩, ⟨"b", 1/10, some 0⟩])
          (([⟨"a", 9/10, some 1⟩, ⟨"b", 1/10, some 0⟩] :
              List Customer).take 1)).precision = some p ∧
      (computePrecisionRecall [⟨"a", 9/10, some 1⟩, ⟨"b", 1/10, some 0⟩]
          (hasActualOf [⟨"a", 9/10, some 1⟩, ⟨"b", 1/10, some 0⟩])
          (([⟨"a", 9/10, some 1⟩, ⟨"b", 1/10, some 0⟩] :
              List Customer).take 1)).recallVal = some r ∧
      0 ≤ p ∧ p ≤ 1 ∧ 0 ≤ r ∧ r ≤ 1 := by
  refine ⟨by decide, by decide, ?_⟩
  obtain ⟨p, r, h1, h2, h3, h4, h5, h6, -, -, -, -⟩ :=
    computePrecisionRecall_bounds
      [⟨"a", 9/10, some 1⟩, ⟨"b", 1/10, some 0⟩] 1 (by decide) (by decide)
  exact ⟨p, r, h1, h2, h3, h4, h5, h6⟩

/-- C7: for every requested capacity, `randomStrategy` clamps it the same
way as `profitFor`, charges `N * contactCost`, and returns
`expectedTruePositives = N * baseRate` with the same profit formula, where
the base rate of a non-empty loaded population is the empirical positive
rate when labels exist and the mean risk score otherwise. -/
theorem randomStrategy_spec (rows : List Customer) (cap : ℤ) (cc cl sr : ℚ)
    (hne : rows ≠ []) :
    (hasActualOf rows = true →
      baseRateOf rows
          = JSNum.num ((countIf labelIsOne rows : ℚ) / (rows.length : ℚ))) ∧
    (hasActualOf rows = false →
      baseRateOf rows
          = JSNum.num
              (sumBy (fun r => r.churn_probability) rows
                / (rows.length : ℚ))) ∧
    ∀ br : ℚ, baseRateOf rows = JSNum.num br →
      (randomStrategy rows cap cc cl sr).tpExp
          = JSNum.num (((clamp cap 0 rows.length : ℤ) : ℚ) * br) ∧
      (randomStrategy rows cap cc cl sr).cost
          = ((clamp cap 0 rows.length : ℤ) : ℚ) * cc ∧
      (randomStrategy rows cap cc cl sr).profit
          = JSNum.num ((((clamp cap 0 rows.length : ℤ) : ℚ) * br) * (sr * cl)
              - ((clamp cap 0 rows.length : ℤ) : ℚ) * cc) := by
  have hlen : (rows.length : ℚ) ≠ 0 :=
    Nat.cast_ne_zero.mpr (List.length_pos.mpr hne).ne'
  refine ⟨?_, ?_, ?_⟩
  · intro h
    simp [baseRateOf, h, jsDiv, hlen]
  · intro h
    simp [baseRateOf, h, jsDiv, hlen]
  · intro br hbr
    refine ⟨?_, rfl, ?_⟩
    · simp [randomStrategy, hbr, JSNum.mulNum]
    · simp [randomStrategy, hbr, JSNum.mulNum, JSNum.timesSub]

/-- Witness for C7 at a one-element labeled population. -/
theorem randomStrategy_spec_witness :
    ([⟨"a", 1/2, some 1⟩] : List Customer) ≠ [] ∧
    baseRateOf [⟨"a", 1/2, some 1⟩]
        = JSNum.num ((countIf labelIsOne [⟨"a", 1/2, some 1⟩] : ℚ)
            / (([⟨"a", 1/2, some 1⟩] : List Customer).length : ℚ)) ∧
    (randomStrategy [⟨"a", 1/2, some 1⟩] 2 3 4 5).cost
        = ((clamp 2 0 (([⟨"a", 1/2, some 1⟩] : List Customer).length : ℤ)
            : ℤ) : ℚ) * 3 := by
  have h1 := (randomStrategy_spec [⟨"a", 1/2, some 1⟩] 2 3 4 5 (by simp)).1
    (by decide)
  refine ⟨by simp, h1, ?_⟩
  exact ((randomStrategy_spec [⟨"a", 1/2, some 1⟩] 2 3 4 5 (by simp)).2.2
    _ h1).2.1

/-- C8: the ranked population is the loaded rows sorted by risk descending,
and the sort is stable: the rows carrying any fixed risk value appear in
the ranked population exactly in their original input order. -/
theorem rankRows_sorted_stable (input : List Customer) :
    (rankRows input).Pairwise
        (fun a b => b.churn_probability ≤ a.churn_probability) ∧
    ∀ v : ℚ,
      (rankRows input).filter (fun r => decide (r.churn_probability = v))
        = input.filter (fun r => decide (r.churn_probability = v)) := by
  have htrans : ∀ a b c : Customer, riskLE a b → riskLE b c → riskLE a c := by
    intro a b c hab hbc
    simp only [riskLE, decide_eq_true_eq] at *
    exact le_trans hbc hab
  have htot : ∀ a b : Customer, riskLE a b || riskLE b a := by
    intro a b
    simp only [riskLE]
    rcases le_total a.churn_probability b.churn_probability with h | h
    · simp [h]
    · simp [h]
  constructor
  · exact List.Pairwise.imp
      (fun h => by simpa [riskLE] using h)
      (List.sorted_mergeSort htrans htot input)
  · intro v
    have hmemv : ∀ r ∈ input.filter
        (fun r => decide (r.churn_probability = v)),
        r.churn_probability = v := by
      intro r hr
      simpa using (List.mem_filter.mp hr).2
    have hpair : (input.filter
        (fun r => decide (r.churn_probability = v))).Pairwise
          (fun a b => riskLE a b) := by
      apply List.pairwise_of_forall_mem_list
      intro a ha b hb
      have hav := hmemv a ha
      have hbv := hmemv b hb
      simp [riskLE, hav, hbv]
    have hsubl : List.Sublist
        (input.filter (fun r => decide (r.churn_probability = v)))
        (rankRows input) :=
      List.sublist_mergeSort htrans htot hpair (List.filter_sublist input)
    have hff : (input.filter
          (fun r => decide (r.churn_probability = v))).filter
            (fun r => decide (r.churn_probability = v))
        = input.filter (fun r => decide (r.churn_probability = v)) :=
      List.filter_eq_self.mpr (fun a ha => (List.mem_filter.mp ha).2)
    have hsub2 : List.Sublist
        (input.filter (fun r => decide (r.churn_probability = v)))
        ((rankRows input).filter
          (fun r => decide (r.churn_probability = v))) := by
      have h2 := hsubl.filter (fun r => decide (r.churn_probability = v))
      rwa [hff] at h2
    have hlen : ((rankRows input).filter
          (fun r => decide (r.churn_probability = v))).length
        = (input.filter (fun r => decide (r.churn_probability = v))).length := by
      rw [← List.countP_eq_length_filter, ← List.countP_eq_length_filter]
      exact (List.mergeSort_perm input riskLE).countP_eq _
    exact (hsub2.eq_of_length hlen.symm).symm

/-- Witness for C10: the label 5 is not counted as a churner. -/
theorem label_counting_spec_witness :
    (5:ℚ) ≠ 1 ∧ labelCoercedIsOne ⟨"x", 0, some 5⟩ = false :=
  ⟨by norm_num,
   (label_counting_spec [] [] 0 0 0 0).2.2.2.2.2.1 "x" 0 5 (by norm_num)⟩

/-- Every point pushed by the sampling loop carries the `profitFor` profit
of its capacity, and its capacity never exceeds the population size. -/
theorem curveLoop_mem_spec (rows : List Customer) (hA : Bool)
    (cc cl sr : ℚ) :
    ∀ cap, ∀ q ∈ curveLoop rows hA cc cl sr cap,
      q.2 = (profitFor rows hA (q.1 : ℤ) cc cl sr).profit ∧
      q.1 ≤ rows.length := by
  intro cap
  induction cap using curveLoop.induct rows hA cc cl sr with
  | case1 cap h ih =>
    intro q hq
    rw [curveLoop] at hq
    simp only [h, dite_true, List.mem_cons] at hq
    rcases hq with rfl | hq
    · exact ⟨rfl, h⟩
    · exact ih q hq
  | case2 cap h =>
    intro q hq
    rw [curveLoop] at hq
    simp [h] at hq

/-- The loop started at an in-range capacity begins with that capacity. -/
theorem curveLoop_head (rows : List Customer) (hA : Bool) (cc cl sr : ℚ)
    (cap : ℕ) (h : cap ≤ rows.length) :
    (curveLoop rows hA cc cl sr cap).head?
      = some (cap, (profitFor rows hA (cap : ℤ) cc cl sr).profit) := by
  rw [curveLoop]
  simp [h]

/-- The sampled capacities are strictly increasing. -/
theorem curveLoop_chain (rows : List Customer) (hA : Bool) (cc cl sr : ℚ) :
    ∀ cap, List.Chain' (fun a b : ℕ × ℚ => a.1 < b.1)
      (curveLoop rows hA cc cl sr cap) := by
  intro cap
  induction cap using curveLoop.induct rows hA cc cl sr with
  | case1 cap h ih =>
    rw [curveLoop]
    simp only [h, dite_true]
    rw [List.chain'_cons']
    refine ⟨?_, ih⟩
    intro b hb
    have h50 : 50 ≤ stepOf rows.length := le_max_left _ _
    by_cases h2 : cap + stepOf rows.length ≤ rows.length
    · rw [curveLoop_head rows hA cc cl sr _ h2] at hb
      simp only [Option.mem_def, Option.some.injEq] at hb
      subst hb
      simp only []
      omega
    · rw [curveLoop] at hb
      simp [h2] at hb
  | case2 cap h =>
    rw [curveLoop]
    simp [h]

/-- C6: for every non-empty population, the profit curve has strictly
ascending capacities, starts at capacity 0, ends exactly at the population
size, and every point's profit is the `profitFor` profit at that point's
capacity with the same parameters. -/
theorem computeProfitCurve_spec (rows : List Customer) (hA : Bool)
    (cc cl sr : ℚ) (hne : rows ≠ []) :
    List.Chain' (fun a b : ℕ × ℚ => a.1 < b.1)
        (computeProfitCurve rows hA cc cl sr) ∧
    (computeProfitCurve rows hA cc cl sr).head?.map Prod.fst = some 0 ∧
    (computeProfitCurve rows hA cc cl sr).getLast?.map Prod.fst
        = some rows.length ∧
    ∀ q ∈ computeProfitCurve rows hA cc cl sr,
      q.2 = (profitFor rows hA (q.1 : ℤ) cc cl sr).profit := by
  have hn0 : rows.length ≠ 0 := (List.length_pos.mpr hne).ne'
  have hhead := curveLoop_head rows hA cc cl sr 0 (Nat.zero_le _)
  have hchain := curveLoop_chain rows hA cc cl sr 0
  have hmem := curveLoop_mem_spec rows hA cc cl sr 0
  have hunfold : computeProfitCurve rows hA cc cl sr =
      (if (curveLoop rows hA cc cl sr 0).getLast?.map Prod.fst
            ≠ some rows.length then
        curveLoop rows hA cc cl sr 0
          ++ [(rows.length,
                (profitFor rows hA (rows.length : ℤ) cc cl sr).profit)]
      else curveLoop rows hA cc cl sr 0) := by
    simp only [computeProfitCurve, hn0, if_false]
  by_cases hlast : (curveLoop rows hA cc cl sr 0).getLast?.map Prod.fst
      = some rows.length
  · rw [hunfold, if_neg (not_not_intro hlast)]
    refine ⟨hchain, ?_, hlast, fun q hq => (hmem q hq).1⟩
    rw [hhead]
    rfl
  · rw [hunfold, if_pos hlast]
    refine ⟨?_, ?_, ?_, ?_⟩
    · rw [List.chain'_append]
      refine ⟨hchain, List.chain'_singleton _, ?_⟩
      intro x hx y hy
      simp only [Option.mem_def] at hx
      simp only [List.head?_cons, Option.mem_def, Option.some.injEq] at hy
      subst hy
      have hxmem : x ∈ curveLoop rows hA cc cl sr 0 :=
        List.mem_of_mem_getLast? hx
      have hxle : x.1 ≤ rows.length := (hmem x hxmem).2
      have hxne : x.1 ≠ rows.length := by
        intro hcontra
        apply hlast
        rw [hx]
        simp [hcontra]
      exact lt_of_le_of_ne hxle hxne
    · rw [List.head?_append, hhead]
      rfl
    · rw [List.getLast?_concat]
      rfl
    · intro q hq
      rcases List.mem_append.mp hq with hq1 | hq1
      · exact (hmem q hq1).1
      · rw [List.mem_singleton.mp hq1]

/-- Witness for C6 at a one-element population. -/
theorem computeProfitCurve_spec_witness :
    ([⟨"a", 9/10, some 1⟩] : List Customer) ≠ [] ∧
    (computeProfitCurve [⟨"a", 9/10, some 1⟩] true 1 10 (1/2)).head?.map
        Prod.fst = some 0 :=
  ⟨by simp,
   (computeProfitCurve_spec [⟨"a", 9/10, some 1⟩] true 1 10 (1/2)
      (by simp)).2.1⟩

end DecisionTool
